import Mathlib

/-!
Verification of `aws/resource_aws_iam_group_membership.go` from
talset/terraform-provider-aws.

The resource's CRUD handlers are embedded shallowly: the IAM API is an
oracle (a response function for per-user add/remove calls, a list of
responses for the paginated `GetGroup` listing), each handler returns its
outcome together with the ordered trace of API calls it issued.
-/

namespace TfAwsIamGroupMembership

/-- AWS SDK errors: an `awserr.Error` carries a code (reachable through the
`err.(awserr.Error)` type assertion); any other Go error does not. -/
inductive AwsError where
  | apiError (code : String) (message : String)
  | genericError (message : String)
deriving DecidableEq, Repr

/-- The check `iamerr, ok := err.(awserr.Error); ok && iamerr.Code() == "NoSuchEntity"`. -/
def isNoSuchEntity : AwsError → Bool
  | .apiError code _ => code == "NoSuchEntity"
  | .genericError _ => false

/-- One IAM API call issued by the resource, in the order the code makes them. -/
inductive ApiCall where
  | addUserToGroup (user : String) (group : String)
  | removeUserFromGroup (user : String) (group : String)
  | getGroup (group : String) (marker : Option String)
deriving DecidableEq, Repr

/-- An entry of `resp.Users`; `UserName` is a `*string` in the SDK, so it is
modelled as an `Option` and the code's `*u.UserName` is a guarded dereference. -/
structure IamUser where
  userName : Option String
deriving DecidableEq, Repr

/-- A `GetGroupOutput` page; `IsTruncated` is a `*bool` and `Marker` a `*string`. -/
structure GetGroupOutput where
  users : List IamUser
  isTruncated : Option Bool
  marker : Option String
deriving DecidableEq, Repr

/-- The fields of the resource record (`schema.ResourceData`) this resource
touches: its identity (`d.Id()`), and the `name`, `group` and `users`
attributes. `users` is `none` while the attribute is unset. -/
structure ResourceData where
  id : String
  name : String
  group : String
  users : Option (List String)
deriving DecidableEq, Repr

/-- Outcome of a CRUD handler: `nil` return with a final record state, an
error return (with the record as the handler left it), or a stuck execution
(a nil-pointer dereference, or the response oracle ran out of pages). -/
inductive OpOutcome where
  | success (d : ResourceData)
  | failure (e : AwsError) (d : ResourceData)
  | stuck
deriving DecidableEq, Repr

/-- `addUsersToGroup`: one sequential `AddUserToGroup` call per user; the
first error aborts the loop and is returned. Returns the error (if any)
and the trace of calls issued. -/
def addUsersToGroup (resp : String → Option AwsError) (users : List String)
    (group : String) : Option AwsError × List ApiCall :=
  match users with
  | [] => (none, [])
  | u :: rest =>
    match resp u with
    | some e => (some e, [ApiCall.addUserToGroup u group])
    | none =>
      let r := addUsersToGroup resp rest group
      (r.1, ApiCall.addUserToGroup u group :: r.2)

/-- `removeUsersFromGroup`: one sequential `RemoveUserFromGroup` call per
user. On an error whose code is `NoSuchEntity` the function returns `nil`
at once (the loop stops); any other error is returned; otherwise the loop
continues. -/
def removeUsersFromGroup (resp : String → Option AwsError) (users : List String)
    (group : String) : Option AwsError × List ApiCall :=
  match users with
  | [] => (none, [])
  | u :: rest =>
    match resp u with
    | some e =>
      if isNoSuchEntity e then (none, [ApiCall.removeUserFromGroup u group])
      else (some e, [ApiCall.removeUserFromGroup u group])
    | none =>
      let r := removeUsersFromGroup resp rest group
      (r.1, ApiCall.removeUserFromGroup u group :: r.2)

/-- The loop `for _, u := range resp.Users { ul = append(ul, *u.UserName) }`:
`none` when some `UserName` pointer is nil (the Go code would panic there). -/
def derefUserNames : List IamUser → Option (List String)
  | [] => some []
  | u :: rest =>
    match u.userName with
    | none => none
    | some nm => (derefUserNames rest).map (fun l => nm :: l)

/-- Result of the pagination loop inside Read: `cleared` is the
`NoSuchEntity ⇒ d.SetId(""); return nil` branch, `ok` the normal exit,
`err` an error return, `nilDeref` a nil-pointer dereference on
`*u.UserName` or `*resp.IsTruncated`, `noResponse` marks the oracle
running out of pages while the code would keep looping. -/
inductive ReadResult where
  | cleared
  | ok (users : List String)
  | err (e : AwsError)
  | nilDeref
  | noResponse
deriving DecidableEq, Repr

/-- The `for { conn.GetGroup(...) ... }` pagination loop of Read. Each
iteration consumes the next oracle response; `marker` and `acc` (= `ul`)
are the loop-carried state. -/
def readLoop (group : String) (marker : Option String) (acc : List String) :
    List (Except AwsError GetGroupOutput) → ReadResult × List ApiCall
  | [] => (.noResponse, [])
  | resp :: rest =>
    let call := ApiCall.getGroup group marker
    match resp with
    | .error e =>
      (if isNoSuchEntity e then .cleared else .err e, [call])
    | .ok out =>
      match derefUserNames out.users with
      | none => (.nilDeref, [call])
      | some names =>
        match out.isTruncated with
        | none => (.nilDeref, [call])
        | some false => (.ok (acc ++ names), [call])
        | some true =>
          let r := readLoop group out.marker (acc ++ names) rest
          (r.1, call :: r.2)

/-- `resourceAwsIamGroupMembershipRead`: runs the pagination loop from a nil
marker and empty `ul`; on `NoSuchEntity` clears the id and returns nil, on
normal exit sets `users` to the aggregated list, on any other error returns
it with the record untouched. -/
def resourceAwsIamGroupMembershipRead (d : ResourceData)
    (responses : List (Except AwsError GetGroupOutput)) : OpOutcome × List ApiCall :=
  let r := readLoop d.group none [] responses
  (match r.1 with
   | .cleared => .success { d with id := "" }
   | .ok ul => .success { d with users := some ul }
   | .err e => .failure e d
   | .nilDeref => .stuck
   | .noResponse => .stuck,
   r.2)

/-- `resourceAwsIamGroupMembershipCreate`: adds every configured user, aborts
on the first add error without setting the id, otherwise sets the id from
`name` and finishes with Read. -/
def resourceAwsIamGroupMembershipCreate (d : ResourceData)
    (addResp : String → Option AwsError)
    (responses : List (Except AwsError GetGroupOutput)) : OpOutcome × List ApiCall :=
  let userList := d.users.getD []
  let r := addUsersToGroup addResp userList d.group
  match r.1 with
  | some e => (.failure e d, r.2)
  | none =>
    let d1 := { d with id := d.name }
    let r2 := resourceAwsIamGroupMembershipRead d1 responses
    (r2.1, r.2 ++ r2.2)

/-- Terraform set equality on the `users` attribute: `d.HasChange("users")`
is false exactly when old and new hold the same elements. -/
def sameSet (o n : List String) : Bool :=
  o.all (fun x => n.contains x) && n.all (fun x => o.contains x)

/-- `os.Difference(ns).List()`: the elements of `o` not in `n`. -/
def listDiff (o n : List String) : List String :=
  o.filter (fun x => !n.contains x)

/-- `resourceAwsIamGroupMembershipUpdate`: when the `users` set changed,
removes `old − new` then adds `new − old`, each step aborting on error;
in every case it finishes with Read. `d.users` holds the new set, the old
set comes from `d.GetChange("users")`. -/
def resourceAwsIamGroupMembershipUpdate (d : ResourceData) (oldUsers : List String)
    (removeResp addResp : String → Option AwsError)
    (responses : List (Except AwsError GetGroupOutput)) : OpOutcome × List ApiCall :=
  let newUsers := d.users.getD []
  if sameSet oldUsers newUsers then
    resourceAwsIamGroupMembershipRead d responses
  else
    let remove := listDiff oldUsers newUsers
    let add := listDiff newUsers oldUsers
    let r1 := removeUsersFromGroup removeResp remove d.group
    match r1.1 with
    | some e => (.failure e d, r1.2)
    | none =>
      let r2 := addUsersToGroup addResp add d.group
      match r2.1 with
      | some e => (.failure e d, r1.2 ++ r2.2)
      | none =>
        let r3 := resourceAwsIamGroupMembershipRead d responses
        (r3.1, r1.2 ++ r2.2 ++ r3.2)

/-- `resourceAwsIamGroupMembershipDelete`: removes every current user via
`removeUsersFromGroup` and returns its error verbatim. -/
def resourceAwsIamGroupMembershipDelete (d : ResourceData)
    (removeResp : String → Option AwsError) : OpOutcome × List ApiCall :=
  let userList := d.users.getD []
  let r := removeUsersFromGroup removeResp userList d.group
  (match r.1 with
   | some e => .failure e d
   | none => .success d,
   r.2)

/-- Modelled after `resource.UniqueId()` of the external
terraform-plugin-sdk: a freshly generated identifier with the constant
`"terraform-"` head, always non-empty. -/
def uniqueId (counter : Nat) : String := "terraform-" ++ toString counter

/-- `resourceAwsIamGroupMembershipImport`: the raw id is the group name;
empty ids are rejected with a format error, otherwise `group` is set from
the id and a fresh unique id is assigned. -/
def resourceAwsIamGroupMembershipImport (counter : Nat) (d : ResourceData) :
    Except String (List ResourceData) :=
  let groupName := d.id
  if groupName.length == 0 then
    .error "unexpected format of ID, expected <group-name>"
  else
    .ok [{ d with group := groupName, id := uniqueId counter }]

/-! ### Helper lemmas about the add / remove loops -/

theorem addUsersToGroup_all_ok (resp : String → Option AwsError)
    (users : List String) (group : String)
    (h : ∀ u ∈ users, resp u = none) :
    addUsersToGroup resp users group =
      (none, users.map (fun u => ApiCall.addUserToGroup u group)) := by
  induction users with
  | nil => rfl
  | cons u rest ih =>
    simp only [addUsersToGroup, h u (by simp),
      ih (fun v hv => h v (List.mem_cons_of_mem _ hv)), List.map_cons]

theorem addUsersToGroup_pre_err (resp : String → Option AwsError)
    (group : String) (pre : List String) (u : String) (post : List String)
    (e : AwsError)
    (hpre : ∀ v ∈ pre, resp v = none) (hu : resp u = some e) :
    addUsersToGroup resp (pre ++ u :: post) group =
      (some e, (pre ++ [u]).map (fun v => ApiCall.addUserToGroup v group)) := by
  induction pre with
  | nil => simp only [List.nil_append, addUsersToGroup, hu, List.map_cons, List.map_nil]
  | cons v rest ih =>
    have ih2 := ih (fun w hw => hpre w (List.mem_cons_of_mem _ hw))
    simp only [List.cons_append, addUsersToGroup, hpre v (by simp), List.append_eq,
      ih2, List.map_cons]

theorem addUsersToGroup_err_source (resp : String → Option AwsError)
    (users : List String) (group : String) (e : AwsError)
    (h : (addUsersToGroup resp users group).1 = some e) :
    ∃ u ∈ users, resp u = some e := by
  induction users with
  | nil => simp [addUsersToGroup] at h
  | cons u rest ih =>
    simp only [addUsersToGroup] at h
    cases hr : resp u with
    | some e2 =>
      rw [hr] at h
      simp only [Option.some.injEq] at h
      subst h
      exact ⟨u, by simp, hr⟩
    | none =>
      rw [hr] at h
      obtain ⟨v, hv, hve⟩ := ih h
      exact ⟨v, List.mem_cons_of_mem _ hv, hve⟩

theorem removeUsersFromGroup_all_ok (resp : String → Option AwsError)
    (users : List String) (group : String)
    (h : ∀ u ∈ users, resp u = none) :
    removeUsersFromGroup resp users group =
      (none, users.map (fun u => ApiCall.removeUserFromGroup u group)) := by
  induction users with
  | nil => rfl
  | cons u rest ih =>
    simp only [removeUsersFromGroup, h u (by simp),
      ih (fun v hv => h v (List.mem_cons_of_mem _ hv)), List.map_cons]

theorem removeUsersFromGroup_pre_err (resp : String → Option AwsError)
    (group : String) (pre : List String) (u : String) (post : List String)
    (e : AwsError)
    (hpre : ∀ v ∈ pre, resp v = none) (hu : resp u = some e) :
    removeUsersFromGroup resp (pre ++ u :: post) group =
      ((if isNoSuchEntity e then none else some e),
       (pre ++ [u]).map (fun v => ApiCall.removeUserFromGroup v group)) := by
  induction pre with
  | nil =>
    simp only [List.nil_append, removeUsersFromGroup, hu, List.map_cons, List.map_nil]
    split <;> rfl
  | cons v rest ih =>
    have ih2 := ih (fun w hw => hpre w (List.mem_cons_of_mem _ hw))
    simp only [List.cons_append, removeUsersFromGroup, hpre v (by simp), List.append_eq,
      ih2, List.map_cons]

theorem removeUsersFromGroup_err_source (resp : String → Option AwsError)
    (users : List String) (group : String) (e : AwsError)
    (h : (removeUsersFromGroup resp users group).1 = some e) :
    ∃ u ∈ users, resp u = some e ∧ isNoSuchEntity e = false := by
  induction users with
  | nil => simp [removeUsersFromGroup] at h
  | cons u rest ih =>
    simp only [removeUsersFromGroup] at h
    cases hr : resp u with
    | some e2 =>
      rw [hr] at h
      by_cases hns : isNoSuchEntity e2
      · simp [hns] at h
      · simp only [hns, if_neg, Bool.false_eq_true, ite_false] at h
        simp only [Option.some.injEq] at h
        subst h
        exact ⟨u, by simp, hr, by simpa using hns⟩
    | none =>
      rw [hr] at h
      obtain ⟨v, hv, hve⟩ := ih h
      exact ⟨v, List.mem_cons_of_mem _ hv, hve⟩

/-! ### Helper lemmas about the Read pagination loop -/

/-- The usernames carried by one listing page (all assumed present). -/
def pageNames (p : GetGroupOutput) : List String :=
  p.users.filterMap IamUser.userName

/-- The `GetGroup` calls Read is expected to issue over a page sequence:
the first with the incoming marker, each later one with the marker of the
immediately preceding page. -/
def expectedTrace (group : String) (marker : Option String) :
    List GetGroupOutput → List ApiCall
  | [] => []
  | p :: rest => ApiCall.getGroup group marker :: expectedTrace group p.marker rest

theorem derefUserNames_all_some (us : List IamUser)
    (h : ∀ u ∈ us, (u.userName).isSome) :
    derefUserNames us = some (us.filterMap IamUser.userName) := by
  induction us with
  | nil => rfl
  | cons u rest ih =>
    obtain ⟨nm, hnm⟩ := Option.isSome_iff_exists.mp (h u (by simp))
    simp only [derefUserNames, hnm, ih (fun v hv => h v (List.mem_cons_of_mem _ hv)),
      List.filterMap_cons]
    rfl

theorem readLoop_pages (group : String) (init : List GetGroupOutput)
    (last : GetGroupOutput) (marker : Option String) (acc : List String)
    (hinit : ∀ p ∈ init, p.isTruncated = some true ∧ ∀ u ∈ p.users, (u.userName).isSome)
    (hlastT : last.isTruncated = some false)
    (hlastU : ∀ u ∈ last.users, (u.userName).isSome) :
    readLoop group marker acc ((init ++ [last]).map Except.ok) =
      (.ok (acc ++ ((init ++ [last]).map pageNames).flatten),
       expectedTrace group marker (init ++ [last])) := by
  induction init generalizing marker acc with
  | nil =>
    simp only [List.nil_append, List.map_cons, List.map_nil, readLoop,
      derefUserNames_all_some last.users hlastU, hlastT, expectedTrace, pageNames,
      List.flatten_cons, List.flatten_nil, List.append_nil]
  | cons p rest ih =>
    obtain ⟨hT, hU⟩ := hinit p (by simp)
    have ih2 : ∀ m a, readLoop group m a ((rest ++ [last]).map Except.ok) =
        (.ok (a ++ ((rest ++ [last]).map pageNames).flatten),
         expectedTrace group m (rest ++ [last])) :=
      fun m a => ih m a (fun q hq => hinit q (List.mem_cons_of_mem _ hq))
    simp only [List.cons_append, List.map_cons, readLoop,
      derefUserNames_all_some p.users hU, hT, List.append_eq, ih2, expectedTrace,
      pageNames, List.flatten_cons, List.append_assoc]

theorem readLoop_trace_getGroup (group : String)
    (responses : List (Except AwsError GetGroupOutput)) (marker : Option String)
    (acc : List String) :
    ∀ c ∈ (readLoop group marker acc responses).2, ∃ m, c = ApiCall.getGroup group m := by
  induction responses generalizing marker acc with
  | nil => simp [readLoop]
  | cons resp rest ih =>
    intro c hc
    match resp with
    | .error e =>
      simp only [readLoop, List.mem_singleton] at hc
      exact ⟨marker, hc⟩
    | .ok out =>
      simp only [readLoop] at hc
      cases hd : derefUserNames out.users with
      | none =>
        rw [hd] at hc
        simp only [List.mem_singleton] at hc
        exact ⟨marker, hc⟩
      | some names =>
        rw [hd] at hc
        cases hT : out.isTruncated with
        | none =>
          rw [hT] at hc
          simp only [List.mem_singleton] at hc
          exact ⟨marker, hc⟩
        | some b =>
          rw [hT] at hc
          cases b with
          | false =>
            simp only [List.mem_singleton] at hc
            exact ⟨marker, hc⟩
          | true =>
            simp only [List.mem_cons] at hc
            cases hc with
            | inl hc => exact ⟨marker, hc⟩
            | inr hc => exact ih out.marker (acc ++ names) c hc

theorem readLoop_err_source (group : String)
    (responses : List (Except AwsError GetGroupOutput)) (marker : Option String)
    (acc : List String) (e : AwsError)
    (h : (readLoop group marker acc responses).1 = .err e) :
    Except.error e ∈ responses ∧ isNoSuchEntity e = false := by
  induction responses generalizing marker acc with
  | nil => simp [readLoop] at h
  | cons resp rest ih =>
    match resp with
    | .error e2 =>
      simp only [readLoop] at h
      by_cases hns : isNoSuchEntity e2
      · simp [hns] at h
      · simp only [hns, Bool.false_eq_true, ite_false, ReadResult.err.injEq] at h
        subst h
        exact ⟨by simp, by simpa using hns⟩
    | .ok out =>
      simp only [readLoop] at h
      cases hd : derefUserNames out.users with
      | none => rw [hd] at h; simp at h
      | some names =>
        rw [hd] at h
        cases hT : out.isTruncated with
        | none => rw [hT] at h; simp at h
        | some b =>
          rw [hT] at h
          cases b with
          | false => simp at h
          | true =>
            obtain ⟨hmem, hns⟩ := ih out.marker (acc ++ names) h
            exact ⟨List.mem_cons_of_mem _ hmem, hns⟩

theorem readLoop_not_nilDeref (group : String)
    (responses : List (Except AwsError GetGroupOutput))
    (hresp : ∀ out : GetGroupOutput, Except.ok out ∈ responses →
      (out.isTruncated).isSome ∧ ∀ u ∈ out.users, (u.userName).isSome) :
    ∀ marker acc, (readLoop group marker acc responses).1 ≠ .nilDeref := by
  induction responses with
  | nil => intro marker acc h; simp [readLoop] at h
  | cons resp rest ih =>
    intro marker acc h
    match resp with
    | .error e =>
      simp only [readLoop] at h
      by_cases hns : isNoSuchEntity e <;> simp [hns] at h
    | .ok out =>
      obtain ⟨hT, hU⟩ := hresp out (by simp)
      simp only [readLoop, derefUserNames_all_some out.users hU] at h
      obtain ⟨b, hb⟩ := Option.isSome_iff_exists.mp hT
      rw [hb] at h
      cases b with
      | false => simp at h
      | true =>
        exact ih (fun o ho => hresp o (List.mem_cons_of_mem _ ho))
          out.marker (acc ++ out.users.filterMap IamUser.userName) h

theorem readLoop_ok_prefix_fst (group : String) (init : List GetGroupOutput)
    (rest : List (Except AwsError GetGroupOutput))
    (hinit : ∀ p ∈ init, p.isTruncated = some true ∧ ∀ u ∈ p.users, (u.userName).isSome) :
    ∀ marker acc, ∃ m2 a2,
      (readLoop group marker acc (init.map Except.ok ++ rest)).1 =
        (readLoop group m2 a2 rest).1 := by
  induction init with
  | nil => intro marker acc; exact ⟨marker, acc, rfl⟩
  | cons p tail ih =>
    intro marker acc
    obtain ⟨hT, hU⟩ := hinit p (by simp)
    simp only [List.map_cons, List.cons_append, readLoop,
      derefUserNames_all_some p.users hU, hT]
    exact ih (fun q hq => hinit q (List.mem_cons_of_mem _ hq)) p.marker
      (acc ++ p.users.filterMap IamUser.userName)

/-! ### Helper lemmas about set differences and operation outcomes -/

theorem listDiff_eq_nil_left (o n : List String) (h : sameSet o n = true) :
    listDiff o n = [] := by
  simp only [sameSet, Bool.and_eq_true, List.all_eq_true] at h
  simp only [listDiff, List.filter_eq_nil_iff]
  intro x hx
  simpa using h.1 x hx

theorem listDiff_eq_nil_right (o n : List String) (h : sameSet o n = true) :
    listDiff n o = [] := by
  simp only [sameSet, Bool.and_eq_true, List.all_eq_true] at h
  simp only [listDiff, List.filter_eq_nil_iff]
  intro x hx
  simpa using h.2 x hx

theorem listDiff_mem (o n : List String) (u : String) :
    u ∈ listDiff o n ↔ u ∈ o ∧ u ∉ n := by
  simp [listDiff, List.mem_filter]

theorem listDiff_nodup (o n : List String) (h : o.Nodup) :
    (listDiff o n).Nodup :=
  h.filter _

/-- The record state carried by an outcome (none when stuck). -/
def outcomeData : OpOutcome → Option ResourceData
  | .success d => some d
  | .failure _ d => some d
  | .stuck => none

theorem read_fst_cases (d : ResourceData)
    (resps : List (Except AwsError GetGroupOutput)) :
    (resourceAwsIamGroupMembershipRead d resps).1 = .success { d with id := "" } ∨
    (∃ ul, (resourceAwsIamGroupMembershipRead d resps).1 =
      .success { d with users := some ul }) ∨
    (∃ e, (resourceAwsIamGroupMembershipRead d resps).1 = .failure e d) ∨
    (resourceAwsIamGroupMembershipRead d resps).1 = .stuck := by
  cases h : (readLoop d.group none [] resps).1 with
  | cleared => exact Or.inl (by simp [resourceAwsIamGroupMembershipRead, h])
  | ok ul => exact Or.inr (Or.inl ⟨ul, by simp [resourceAwsIamGroupMembershipRead, h]⟩)
  | err e => exact Or.inr (Or.inr (Or.inl ⟨e, by simp [resourceAwsIamGroupMembershipRead, h]⟩))
  | nilDeref => exact Or.inr (Or.inr (Or.inr (by simp [resourceAwsIamGroupMembershipRead, h])))
  | noResponse => exact Or.inr (Or.inr (Or.inr (by simp [resourceAwsIamGroupMembershipRead, h])))

theorem read_preserves_name_group (d : ResourceData)
    (resps : List (Except AwsError GetGroupOutput)) :
    ∀ d' ∈ outcomeData (resourceAwsIamGroupMembershipRead d resps).1,
      d'.name = d.name ∧ d'.group = d.group := by
  intro d' hd'
  rcases read_fst_cases d resps with h | ⟨ul, h⟩ | ⟨e, h⟩ | h <;>
    rw [h] at hd' <;> simp only [outcomeData, Option.mem_def, Option.some.injEq] at hd'
  · subst hd'; exact ⟨rfl, rfl⟩
  · subst hd'; exact ⟨rfl, rfl⟩
  · subst hd'; exact ⟨rfl, rfl⟩
  · exact Option.noConfusion hd'

theorem read_err_data_unchanged (d : ResourceData)
    (resps : List (Except AwsError GetGroupOutput)) (e : AwsError)
    (d' : ResourceData)
    (h : (resourceAwsIamGroupMembershipRead d resps).1 = .failure e d') :
    d' = d := by
  rcases read_fst_cases d resps with h2 | ⟨ul, h2⟩ | ⟨e2, h2⟩ | h2 <;>
    rw [h2] at h <;> simp_all

theorem uniqueId_ne_empty (c : Nat) : uniqueId c ≠ "" := by
  intro h
  have h2 := congrArg String.length h
  simp [uniqueId, String.length_append] at h2
  exact absurd h2.1 (by decide)

/-! ### Claim theorems -/

/-- C1, counterexample: deleting the membership `["alice", "bob"]` when the
removal of `"alice"` fails with code `NoSuchEntity` returns success after a
single removal call; the remaining member `"bob"` is never removed, contrary
to the claim that the remaining members are still removed. -/
theorem c1_counterexample :
    resourceAwsIamGroupMembershipDelete
        { id := "team", name := "team", group := "g", users := some ["alice", "bob"] }
        (fun u => if u = "alice" then some (AwsError.apiError "NoSuchEntity" "gone")
                  else none) =
      (OpOutcome.success
        { id := "team", name := "team", group := "g", users := some ["alice", "bob"] },
       [ApiCall.removeUserFromGroup "alice" "g"]) ∧
    ApiCall.removeUserFromGroup "bob" "g" ∉
      (resourceAwsIamGroupMembershipDelete
        { id := "team", name := "team", group := "g", users := some ["alice", "bob"] }
        (fun u => if u = "alice" then some (AwsError.apiError "NoSuchEntity" "gone")
                  else none)).2 := by
  constructor
  · decide
  · decide

/-- C1, amended: Delete removes the listed members one by one; if every
removal succeeds each member is removed exactly once. A removal failing
with code `NoSuchEntity` makes the whole operation return success at once,
WITHOUT attempting the remaining removals; any other removal error aborts
and is surfaced unchanged (again leaving the rest unattempted). -/
theorem c1_delete_removal_semantics (d : ResourceData)
    (rr : String → Option AwsError) :
    ((∀ u ∈ d.users.getD [], rr u = none) →
      resourceAwsIamGroupMembershipDelete d rr =
        (.success d,
         (d.users.getD []).map (fun u => ApiCall.removeUserFromGroup u d.group))) ∧
    (∀ pre u post e, d.users.getD [] = pre ++ u :: post →
      (∀ v ∈ pre, rr v = none) → rr u = some e →
      resourceAwsIamGroupMembershipDelete d rr =
        ((if isNoSuchEntity e then .success d else .failure e d),
         (pre ++ [u]).map (fun v => ApiCall.removeUserFromGroup v d.group))) := by
  constructor
  · intro h
    simp only [resourceAwsIamGroupMembershipDelete,
      removeUsersFromGroup_all_ok rr (d.users.getD []) d.group h]
  · intro pre u post e hsplit hpre hu
    simp only [resourceAwsIamGroupMembershipDelete, hsplit,
      removeUsersFromGroup_pre_err rr d.group pre u post e hpre hu]
    by_cases hns : isNoSuchEntity e <;> simp [hns]

/-- C1, witness for the amended theorem: a mid-loop failure with a
non-`NoSuchEntity` error aborts after the failing call and surfaces it. -/
theorem c1_delete_removal_semantics_witness :
    resourceAwsIamGroupMembershipDelete
        { id := "t", name := "t", group := "g2", users := some ["eve", "frank"] }
        (fun u => if u = "eve" then some (AwsError.genericError "boom") else none) =
      ((if isNoSuchEntity (AwsError.genericError "boom") then
          OpOutcome.success { id := "t", name := "t", group := "g2", users := some ["eve", "frank"] }
        else
          OpOutcome.failure (AwsError.genericError "boom")
            { id := "t", name := "t", group := "g2", users := some ["eve", "frank"] }),
       ([] ++ ["eve"]).map (fun v => ApiCall.removeUserFromGroup v "g2")) :=
  (c1_delete_removal_semantics _ _).2 [] "eve" ["frank"] (AwsError.genericError "boom")
    (by decide) (by decide) (by decide)

/-- C4: when the listing fails with code `NoSuchEntity` (after any number of
well-formed truncated pages), Read clears the record's identity and returns
no error; on any other listing error Read returns exactly that error with
the record unchanged. -/
theorem c4_read_not_found (d : ResourceData) (init : List GetGroupOutput)
    (e : AwsError)
    (hinit : ∀ p ∈ init, p.isTruncated = some true ∧
      ∀ u ∈ p.users, (u.userName).isSome) :
    (resourceAwsIamGroupMembershipRead d (init.map Except.ok ++ [Except.error e])).1 =
      if isNoSuchEntity e then .success { d with id := "" } else .failure e d := by
  obtain ⟨m2, a2, hfst⟩ :=
    readLoop_ok_prefix_fst d.group init [Except.error e] hinit none []
  have h1 : (readLoop d.group none [] (init.map Except.ok ++ [Except.error e])).1 =
      (if isNoSuchEntity e then ReadResult.cleared else ReadResult.err e) := by
    rw [hfst]; simp [readLoop]
  by_cases hns : isNoSuchEntity e <;>
    simp [resourceAwsIamGroupMembershipRead, h1, hns]

/-- C4, witness: a first-page `NoSuchEntity` listing error clears the id. -/
theorem c4_read_not_found_witness :
    (resourceAwsIamGroupMembershipRead
        { id := "team", name := "team", group := "g", users := some ["a"] }
        (([] : List GetGroupOutput).map Except.ok ++
          [Except.error (AwsError.apiError "NoSuchEntity" "no group")])).1 =
      if isNoSuchEntity (AwsError.apiError "NoSuchEntity" "no group") then
        OpOutcome.success { id := "", name := "team", group := "g", users := some ["a"] }
      else
        OpOutcome.failure (AwsError.apiError "NoSuchEntity" "no group")
          { id := "team", name := "team", group := "g", users := some ["a"] } :=
  c4_read_not_found _ [] _ (by decide)

/-- C5: Import fails with the format error exactly when the raw id is empty;
a non-empty raw id yields the record with `group` set to the raw id, a fresh
non-empty unique identity, and every other field — `users` included — left
untouched (unset stays unset). -/
theorem c5_import (counter : Nat) (d : ResourceData) :
    (d.id = "" → resourceAwsIamGroupMembershipImport counter d =
      .error "unexpected format of ID, expected <group-name>") ∧
    (d.id ≠ "" → resourceAwsIamGroupMembershipImport counter d =
      .ok [{ d with group := d.id, id := uniqueId counter }] ∧
      uniqueId counter ≠ "") := by
  constructor
  · intro h
    simp [resourceAwsIamGroupMembershipImport, h]
  · intro h
    refine ⟨?_, uniqueId_ne_empty counter⟩
    have hlen : (d.id.length == 0) = false := by
      rw [beq_eq_false_iff_ne]
      intro h0
      apply h
      have hdata : d.id.data = [] := by
        have hld := String.length_data d.id
        rw [h0] at hld
        exact List.length_eq_zero.mp hld
      exact String.ext hdata
    simp [resourceAwsIamGroupMembershipImport, hlen]

/-- C5, witness: importing `"my-group"` succeeds with `group = "my-group"`,
a fresh non-empty id, and `users` still unset. -/
theorem c5_import_witness :
    resourceAwsIamGroupMembershipImport 0
        { id := "my-group", name := "", group := "", users := none } =
      .ok [{ id := uniqueId 0, name := "", group := "my-group", users := none }] ∧
    uniqueId 0 ≠ "" :=
  (c5_import 0 { id := "my-group", name := "", group := "", users := none }).2
    (by decide)

/-- C10: if every page the oracle returns successfully carries a present
`IsTruncated` flag and only users with present `UserName`s, the
nil-dereference outcome of the Read pagination loop is unreachable. -/
theorem c10_read_no_nil_deref (d : ResourceData)
    (responses : List (Except AwsError GetGroupOutput))
    (hresp : ∀ out : GetGroupOutput, Except.ok out ∈ responses →
      (out.isTruncated).isSome ∧ ∀ u ∈ out.users, (u.userName).isSome) :
    (readLoop d.group none [] responses).1 ≠ .nilDeref :=
  readLoop_not_nilDeref d.group responses hresp none []

/-- C10, witness: a single well-formed final page does not hit the
nil-dereference branch. -/
theorem c10_read_no_nil_deref_witness :
    (readLoop
        (ResourceData.group { id := "i", name := "n", group := "g", users := none })
        none []
        [Except.ok { users := [{ userName := some "a" }],
                     isTruncated := some false, marker := none }]).1 ≠
      ReadResult.nilDeref :=
  c10_read_no_nil_deref { id := "i", name := "n", group := "g", users := none }
    [Except.ok { users := [{ userName := some "a" }],
                 isTruncated := some false, marker := none }]
    (by
      intro out hout
      rw [List.mem_singleton] at hout
      injection hout with hout
      subst hout
      exact ⟨rfl, by decide⟩)

/-- C3: over a page sequence whose first N−1 pages are truncated and whose
last page is not, Read succeeds with the concatenation of all pages'
usernames, and its call trace requests the first page with a nil marker and
every later page with the marker of the immediately preceding page —
stopping exactly at the page whose truncated flag is false. -/
theorem c3_read_pagination (d : ResourceData) (init : List GetGroupOutput)
    (last : GetGroupOutput)
    (hinit : ∀ p ∈ init, p.isTruncated = some true ∧
      ∀ u ∈ p.users, (u.userName).isSome)
    (hlastT : last.isTruncated = some false)
    (hlastU : ∀ u ∈ last.users, (u.userName).isSome) :
    resourceAwsIamGroupMembershipRead d ((init ++ [last]).map Except.ok) =
      (.success { d with users := some (((init ++ [last]).map pageNames).flatten) },
       expectedTrace d.group none (init ++ [last])) := by
  have h := readLoop_pages d.group init last none [] hinit hlastT hlastU
  simp only [resourceAwsIamGroupMembershipRead, h, List.nil_append]

/-- C3, witness: two pages, the first truncated with a marker, the second
final; the users of both pages are aggregated and the second request carries
the first page's marker. -/
theorem c3_read_pagination_witness :
    resourceAwsIamGroupMembershipRead
        { id := "i", name := "n", group := "g", users := none }
        ((([{ users := [{ userName := some "a" }],
              isTruncated := some true, marker := some "m1" }] :
            List GetGroupOutput) ++
          ([{ users := [{ userName := some "b" }],
              isTruncated := some false, marker := none }] :
            List GetGroupOutput)).map Except.ok) =
      (OpOutcome.success
        { id := "i", name := "n", group := "g",
          users := some (((([{ users := [{ userName := some "a" }],
                               isTruncated := some true, marker := some "m1" }] :
                             List GetGroupOutput) ++
                           ([{ users := [{ userName := some "b" }],
                               isTruncated := some false, marker := none }] :
                             List GetGroupOutput)).map
                             pageNames).flatten) },
       expectedTrace "g" none
         (([{ users := [{ userName := some "a" }],
              isTruncated := some true, marker := some "m1" }] :
           List GetGroupOutput) ++
          [{ users := [{ userName := some "b" }],
             isTruncated := some false, marker := none }])) :=
  c3_read_pagination { id := "i", name := "n", group := "g", users := none }
    [{ users := [{ userName := some "a" }],
       isTruncated := some true, marker := some "m1" }]
    { users := [{ userName := some "b" }],
      isTruncated := some false, marker := none }
    (by decide) (by decide) (by decide)

/-- C2: with no call failures, Update issues exactly the removals
`old − new` then exactly the additions `new − old` (in that order, before
the final Read's listing calls), each member at most once and characterised
by set difference; and if the removal step fails, Update returns that
failure having issued only the removal step's calls — the addition step
never begins. -/
theorem c2_update_diff (d : ResourceData) (oldUsers : List String)
    (rr ar : String → Option AwsError)
    (resps : List (Except AwsError GetGroupOutput))
    (hrr : ∀ u, rr u = none) (har : ∀ u, ar u = none) :
    resourceAwsIamGroupMembershipUpdate d oldUsers rr ar resps =
      ((resourceAwsIamGroupMembershipRead d resps).1,
       (listDiff oldUsers (d.users.getD [])).map
           (fun u => ApiCall.removeUserFromGroup u d.group) ++
         (listDiff (d.users.getD []) oldUsers).map
           (fun u => ApiCall.addUserToGroup u d.group) ++
         (resourceAwsIamGroupMembershipRead d resps).2) ∧
    (∀ u, u ∈ listDiff oldUsers (d.users.getD []) ↔
      u ∈ oldUsers ∧ u ∉ d.users.getD []) ∧
    (∀ u, u ∈ listDiff (d.users.getD []) oldUsers ↔
      u ∈ d.users.getD [] ∧ u ∉ oldUsers) ∧
    (oldUsers.Nodup → (listDiff oldUsers (d.users.getD [])).Nodup) ∧
    ((d.users.getD []).Nodup → (listDiff (d.users.getD []) oldUsers).Nodup) ∧
    (∀ rr2 e t1,
      removeUsersFromGroup rr2 (listDiff oldUsers (d.users.getD [])) d.group =
        (some e, t1) →
      resourceAwsIamGroupMembershipUpdate d oldUsers rr2 ar resps =
        (.failure e d, t1)) := by
  refine ⟨?_, fun u => listDiff_mem _ _ u, fun u => listDiff_mem _ _ u,
    fun h => listDiff_nodup _ _ h, fun h => listDiff_nodup _ _ h, ?_⟩
  · by_cases hsame : sameSet oldUsers (d.users.getD []) = true
    · simp only [resourceAwsIamGroupMembershipUpdate, hsame, if_true,
        listDiff_eq_nil_left _ _ hsame, listDiff_eq_nil_right _ _ hsame,
        List.map_nil, List.nil_append]
    · simp only [resourceAwsIamGroupMembershipUpdate, hsame, if_false,
        Bool.false_eq_true,
        removeUsersFromGroup_all_ok rr (listDiff oldUsers (d.users.getD []))
          d.group (fun u _ => hrr u),
        addUsersToGroup_all_ok ar (listDiff (d.users.getD []) oldUsers)
          d.group (fun u _ => har u)]
  · intro rr2 e t1 h
    by_cases hsame : sameSet oldUsers (d.users.getD []) = true
    · rw [listDiff_eq_nil_left _ _ hsame] at h
      simp [removeUsersFromGroup] at h
    · simp only [resourceAwsIamGroupMembershipUpdate, hsame, if_false,
        Bool.false_eq_true, h]

/-- C2, witness: old = `["a","b"]`, new = `["b","c"]` with an all-success
oracle: one removal of `"a"`, one addition of `"c"`, removal first. -/
theorem c2_update_diff_witness :
    resourceAwsIamGroupMembershipUpdate
        { id := "i", name := "n", group := "g", users := some ["b", "c"] }
        ["a", "b"] (fun _ => none) (fun _ => none) [] =
      ((resourceAwsIamGroupMembershipRead
          { id := "i", name := "n", group := "g", users := some ["b", "c"] } []).1,
       (listDiff ["a", "b"]
           ((some ["b", "c"] : Option (List String)).getD [])).map
           (fun u => ApiCall.removeUserFromGroup u "g") ++
         (listDiff ((some ["b", "c"] : Option (List String)).getD [])
             ["a", "b"]).map (fun u => ApiCall.addUserToGroup u "g") ++
         (resourceAwsIamGroupMembershipRead
           { id := "i", name := "n", group := "g", users := some ["b", "c"] } []).2) :=
  (c2_update_diff { id := "i", name := "n", group := "g", users := some ["b", "c"] }
    ["a", "b"] (fun _ => none) (fun _ => none) []
    (fun _ => rfl) (fun _ => rfl)).1

/-- C6: Create adds each desired member with one sequential call. If some
add fails first, Create surfaces that exact error, leaves the record (and
in particular its unset identity) untouched, and its trace holds only the
adds attempted so far — no rollback calls. If every add succeeds, the
identity is set from `name` and Read runs on the updated record. -/
theorem c6_create (d : ResourceData) (ar : String → Option AwsError)
    (resps : List (Except AwsError GetGroupOutput)) :
    ((∀ u ∈ d.users.getD [], ar u = none) →
      resourceAwsIamGroupMembershipCreate d ar resps =
        ((resourceAwsIamGroupMembershipRead { d with id := d.name } resps).1,
         (d.users.getD []).map (fun u => ApiCall.addUserToGroup u d.group) ++
           (resourceAwsIamGroupMembershipRead { d with id := d.name } resps).2)) ∧
    (∀ pre u post e, d.users.getD [] = pre ++ u :: post →
      (∀ v ∈ pre, ar v = none) → ar u = some e →
      resourceAwsIamGroupMembershipCreate d ar resps =
        (.failure e d,
         (pre ++ [u]).map (fun v => ApiCall.addUserToGroup v d.group))) := by
  constructor
  · intro h
    simp only [resourceAwsIamGroupMembershipCreate,
      addUsersToGroup_all_ok ar (d.users.getD []) d.group h]
  · intro pre u post e hsplit hpre hu
    simp only [resourceAwsIamGroupMembershipCreate, hsplit,
      addUsersToGroup_pre_err ar d.group pre u post e hpre hu]

/-- C6, witness: the second of three adds fails; Create stops there, keeps
the unset identity, and its trace is exactly the two attempted adds. -/
theorem c6_create_witness :
    resourceAwsIamGroupMembershipCreate
        { id := "", name := "n", group := "g", users := some ["a", "b", "c"] }
        (fun u => if u = "b" then some (AwsError.genericError "add failed") else none)
        [] =
      (OpOutcome.failure (AwsError.genericError "add failed")
        { id := "", name := "n", group := "g", users := some ["a", "b", "c"] },
       (["a"] ++ ["b"]).map (fun v => ApiCall.addUserToGroup v "g")) :=
  (c6_create { id := "", name := "n", group := "g", users := some ["a", "b", "c"] }
    (fun u => if u = "b" then some (AwsError.genericError "add failed") else none)
    []).2 ["a"] "b" ["c"] (AwsError.genericError "add failed")
    (by decide) (by decide) (by decide)

/-! ### A no-interference environment for the Create-then-Read claim -/

/-- The IAM-side effect of a sequence of successful `AddUserToGroup` calls
on a group's membership (adding an existing member is a no-op for the set). -/
def applyAdds (membership : List String) (users : List String) : List String :=
  users.foldl (fun m u => if m.contains u then m else m ++ [u]) membership

/-- The listing pages a group with the given membership yields when nothing
interferes: a single final page naming exactly the members. -/
def pagesOfMembership (members : List String) :
    List (Except AwsError GetGroupOutput) :=
  [Except.ok { users := members.map (fun n => { userName := some n }),
               isTruncated := some false, marker := none }]

theorem read_pagesOfMembership (d : ResourceData) (m : List String) :
    resourceAwsIamGroupMembershipRead d (pagesOfMembership m) =
      (.success { d with users := some m }, [ApiCall.getGroup d.group none]) := by
  have hd : derefUserNames (m.map (fun n => ({ userName := some n } : IamUser))) =
      some m := by
    induction m with
    | nil => rfl
    | cons x xs ih => simp [derefUserNames, ih]
  simp [resourceAwsIamGroupMembershipRead, pagesOfMembership, readLoop, hd]

theorem applyAdds_fresh (users : List String) :
    ∀ membership, users.Nodup → (∀ u ∈ users, u ∉ membership) →
      applyAdds membership users = membership ++ users := by
  induction users with
  | nil => intro m _ _; simp [applyAdds]
  | cons u rest ih =>
    intro m hnd hfresh
    have hum : u ∉ m := hfresh u (by simp)
    have hstep : applyAdds m (u :: rest) = applyAdds (m ++ [u]) rest := by
      simp [applyAdds, hum]
    rw [hstep, ih (m ++ [u]) (List.Nodup.of_cons hnd)]
    · simp
    · intro v hv
      simp only [List.mem_append, List.mem_singleton]
      rintro (hvm | hvu)
      · exact hfresh v (List.mem_cons_of_mem _ hv) hvm
      · exact (List.nodup_cons.mp hnd).1 (hvu ▸ hv)

/-- C7: with an empty initial group, all adds succeeding, and the listing
reflecting exactly the membership the adds produced (no interference),
Create followed by its final Read yields `users = D`; and in general a Read
against the observed membership of a group reconciles `users` with it. -/
theorem c7_create_then_read (d : ResourceData) (D : List String)
    (hD : d.users = some D) (hnodup : D.Nodup)
    (ar : String → Option AwsError) (har : ∀ u, ar u = none) :
    resourceAwsIamGroupMembershipCreate d ar (pagesOfMembership (applyAdds [] D)) =
      (.success { d with id := d.name, users := some D },
       D.map (fun u => ApiCall.addUserToGroup u d.group) ++
         [ApiCall.getGroup d.group none]) ∧
    (∀ d2 m, (resourceAwsIamGroupMembershipRead d2 (pagesOfMembership m)).1 =
      .success { d2 with users := some m }) := by
  constructor
  · have hmem : applyAdds [] D = D := by
      have := applyAdds_fresh D [] hnodup (by simp)
      simpa using this
    simp only [resourceAwsIamGroupMembershipCreate, hD, Option.getD_some,
      addUsersToGroup_all_ok ar D d.group (fun u _ => har u), hmem,
      read_pagesOfMembership]
  · intro d2 m
    rw [read_pagesOfMembership]

/-- C7, witness: creating `["u1", "u2"]` in an empty group and reading back
the resulting membership reconciles `users` to exactly `["u1", "u2"]`. -/
theorem c7_create_then_read_witness :
    resourceAwsIamGroupMembershipCreate
        { id := "", name := "n", group := "g", users := some ["u1", "u2"] }
        (fun _ => none) (pagesOfMembership (applyAdds [] ["u1", "u2"])) =
      (OpOutcome.success
        { id := "n", name := "n", group := "g", users := some ["u1", "u2"] },
       (["u1", "u2"]).map (fun u => ApiCall.addUserToGroup u "g") ++
         [ApiCall.getGroup "g" none]) ∧
    (∀ d2 m, (resourceAwsIamGroupMembershipRead d2 (pagesOfMembership m)).1 =
      OpOutcome.success { d2 with users := some m }) :=
  c7_create_then_read
    { id := "", name := "n", group := "g", users := some ["u1", "u2"] }
    ["u1", "u2"] rfl (by decide) (fun _ => none) (fun _ => rfl)

/-! ### Error propagation helpers -/

theorem read_failure_source (d : ResourceData)
    (resps : List (Except AwsError GetGroupOutput)) (e : AwsError)
    (d' : ResourceData)
    (h : (resourceAwsIamGroupMembershipRead d resps).1 = .failure e d') :
    Except.error e ∈ resps ∧ isNoSuchEntity e = false := by
  cases hrl : (readLoop d.group none [] resps).1 with
  | cleared => simp [resourceAwsIamGroupMembershipRead, hrl] at h
  | ok ul => simp [resourceAwsIamGroupMembershipRead, hrl] at h
  | err e2 =>
    simp only [resourceAwsIamGroupMembershipRead, hrl,
      OpOutcome.failure.injEq] at h
    exact h.1 ▸ readLoop_err_source d.group resps none [] e2 hrl
  | nilDeref => simp [resourceAwsIamGroupMembershipRead, hrl] at h
  | noResponse => simp [resourceAwsIamGroupMembershipRead, hrl] at h

/-- C8: whenever Create, Read, Update or Delete returns an error, that
error is exactly the value produced by one of the failing API calls of the
operation (an add, a remove of the computed difference, or a listing call),
unchanged; removal and listing errors can only propagate when their code is
not the tolerated `NoSuchEntity`. -/
theorem c8_error_propagation (d : ResourceData) (oldUsers : List String)
    (rr ar : String → Option AwsError)
    (resps : List (Except AwsError GetGroupOutput)) (e : AwsError)
    (d' : ResourceData) :
    ((resourceAwsIamGroupMembershipCreate d ar resps).1 = .failure e d' →
      (∃ u ∈ d.users.getD [], ar u = some e) ∨
        (Except.error e ∈ resps ∧ isNoSuchEntity e = false)) ∧
    ((resourceAwsIamGroupMembershipRead d resps).1 = .failure e d' →
      Except.error e ∈ resps ∧ isNoSuchEntity e = false) ∧
    ((resourceAwsIamGroupMembershipUpdate d oldUsers rr ar resps).1 = .failure e d' →
      (∃ u ∈ listDiff oldUsers (d.users.getD []),
        rr u = some e ∧ isNoSuchEntity e = false) ∨
        (∃ u ∈ listDiff (d.users.getD []) oldUsers, ar u = some e) ∨
        (Except.error e ∈ resps ∧ isNoSuchEntity e = false)) ∧
    ((resourceAwsIamGroupMembershipDelete d rr).1 = .failure e d' →
      ∃ u ∈ d.users.getD [], rr u = some e ∧ isNoSuchEntity e = false) := by
  refine ⟨?_, fun h => read_failure_source d resps e d' h, ?_, ?_⟩
  · intro h
    cases ha : (addUsersToGroup ar (d.users.getD []) d.group).1 with
    | some e2 =>
      simp only [resourceAwsIamGroupMembershipCreate, ha,
        OpOutcome.failure.injEq] at h
      exact Or.inl (h.1 ▸ addUsersToGroup_err_source ar (d.users.getD []) d.group e2 ha)
    | none =>
      simp only [resourceAwsIamGroupMembershipCreate, ha] at h
      exact Or.inr (read_failure_source _ resps e d' h)
  · intro h
    by_cases hsame : sameSet oldUsers (d.users.getD []) = true
    · simp only [resourceAwsIamGroupMembershipUpdate, hsame, if_true] at h
      exact Or.inr (Or.inr (read_failure_source d resps e d' h))
    · simp only [resourceAwsIamGroupMembershipUpdate, hsame, if_false,
        Bool.false_eq_true] at h
      cases hr1 : (removeUsersFromGroup rr
          (listDiff oldUsers (d.users.getD [])) d.group).1 with
      | some e2 =>
        rw [hr1] at h
        simp only [OpOutcome.failure.injEq] at h
        exact Or.inl (h.1 ▸ removeUsersFromGroup_err_source rr _ d.group e2 hr1)
      | none =>
        rw [hr1] at h
        cases hr2 : (addUsersToGroup ar
            (listDiff (d.users.getD []) oldUsers) d.group).1 with
        | some e2 =>
          rw [hr2] at h
          simp only [OpOutcome.failure.injEq] at h
          exact Or.inr (Or.inl
            (h.1 ▸ addUsersToGroup_err_source ar _ d.group e2 hr2))
        | none =>
          rw [hr2] at h
          exact Or.inr (Or.inr (read_failure_source d resps e d' h))
  · intro h
    cases hr : (removeUsersFromGroup rr (d.users.getD []) d.group).1 with
    | some e2 =>
      simp only [resourceAwsIamGroupMembershipDelete, hr,
        OpOutcome.failure.injEq] at h
      exact h.1 ▸ removeUsersFromGroup_err_source rr _ d.group e2 hr
    | none =>
      simp [resourceAwsIamGroupMembershipDelete, hr] at h

/-- C8, witness: a Delete whose single removal fails with a generic error
surfaces exactly that error, produced by that removal call. -/
theorem c8_error_propagation_witness :
    ∃ u ∈ (some ["a"] : Option (List String)).getD [],
      (fun v : String => if v = "a" then some (AwsError.genericError "kaput")
                         else none) u = some (AwsError.genericError "kaput") ∧
      isNoSuchEntity (AwsError.genericError "kaput") = false :=
  (c8_error_propagation
    { id := "i", name := "n", group := "g", users := some ["a"] } []
    (fun v => if v = "a" then some (AwsError.genericError "kaput") else none)
    (fun _ => none) [] (AwsError.genericError "kaput")
    { id := "i", name := "n", group := "g", users := some ["a"] }).2.2.2
    (by decide)

/-- C9: when the old and new `users` sets are equal, Update is exactly Read:
it issues only `GetGroup` listing calls (no adds, no removes), and the
`name` and `group` fields of whatever record state results are unchanged. -/
theorem c9_update_no_change (d : ResourceData) (oldUsers : List String)
    (rr ar : String → Option AwsError)
    (resps : List (Except AwsError GetGroupOutput))
    (hsame : sameSet oldUsers (d.users.getD []) = true) :
    resourceAwsIamGroupMembershipUpdate d oldUsers rr ar resps =
      resourceAwsIamGroupMembershipRead d resps ∧
    (∀ c ∈ (resourceAwsIamGroupMembershipUpdate d oldUsers rr ar resps).2,
      ∃ m, c = ApiCall.getGroup d.group m) ∧
    (∀ d' ∈ outcomeData (resourceAwsIamGroupMembershipUpdate d oldUsers rr ar resps).1,
      d'.name = d.name ∧ d'.group = d.group) := by
  have h1 : resourceAwsIamGroupMembershipUpdate d oldUsers rr ar resps =
      resourceAwsIamGroupMembershipRead d resps := by
    simp [resourceAwsIamGroupMembershipUpdate, hsame]
  refine ⟨h1, ?_, ?_⟩
  · rw [h1]
    have h2 : (resourceAwsIamGroupMembershipRead d resps).2 =
        (readLoop d.group none [] resps).2 := rfl
    rw [h2]
    exact readLoop_trace_getGroup d.group resps none []
  · rw [h1]
    exact read_preserves_name_group d resps

/-- C9, witness: an Update whose user set is unchanged equals the plain
Read, makes only listing calls, and preserves `name` and `group`. -/
theorem c9_update_no_change_witness :
    resourceAwsIamGroupMembershipUpdate
        { id := "i", name := "n", group := "g", users := some ["a"] }
        ["a"] (fun _ => none) (fun _ => none) [] =
      resourceAwsIamGroupMembershipRead
        { id := "i", name := "n", group := "g", users := some ["a"] } [] ∧
    (∀ c ∈ (resourceAwsIamGroupMembershipUpdate
        { id := "i", name := "n", group := "g", users := some ["a"] }
        ["a"] (fun _ => none) (fun _ => none) []).2,
      ∃ m, c = ApiCall.getGroup "g" m) ∧
    (∀ d' ∈ outcomeData (resourceAwsIamGroupMembershipUpdate
        { id := "i", name := "n", group := "g", users := some ["a"] }
        ["a"] (fun _ => none) (fun _ => none) []).1,
      d'.name = "n" ∧ d'.group = "g") :=
  c9_update_no_change
    { id := "i", name := "n", group := "g", users := some ["a"] }
    ["a"] (fun _ => none) (fun _ => none) [] (by decide)

end TfAwsIamGroupMembership
